import Mathlib

/-!
Verification development for the COMP3011 identity-and-social-graph API.

The JavaScript source (Express controllers, the Mongoose `Author` model and
the JWT auth middleware) is embedded shallowly:

* strings are rendered as `List Char` (written via `("...").data` at
  concrete inputs), so that every operation reduces in the kernel;
* the MongoDB author collection is a `List Author` in insertion order;
  `findById` / `findOne` are first-match searches, a Mongoose `save` of a
  loaded document writes it back by its `_id` (`setDoc`), and
  `findByIdAndDelete` filters the collection;
* `bcrypt` is modelled abstractly by a deterministic, injective, one-way
  tagging function: the only properties the development uses are that a
  hash never equals its plaintext and that `bcrypt.compare` accepts exactly
  the original plaintext (the salt is abstracted away);
* `jsonwebtoken` is modelled by a concrete sign/verify pair: the payload
  (the account id, plus an optional `exp` claim which the repository never
  sets) is rendered by an injective separator-free encoding, and the
  signature is a keyed tag over the payload, recomputed and compared on
  verification.  These stand for base64url(JSON) and HMAC-SHA256; the
  claims only use injectivity, the absence of the `.` separator inside the
  parts, and that verification recomputes the tag.
-/

namespace Api


/-! ## Credential codec (bcrypt model) -/

/-- Abstract model of `bcrypt.hash(plain, 10)`: a one-way, injective tagging
of the plaintext.  The `$2b$10$` prefix mirrors the bcrypt format marker;
the model is deterministic (the salt is abstracted away), which is sound
for the properties proved here: the hash never equals the plaintext, and
verification accepts exactly the original plaintext. -/
def bcryptHash (plain : List Char) : List Char :=
  ("$2b$10$").data ++ plain

/-- Abstract model of `bcrypt.compare(plain, hashed)`: verification succeeds
exactly when `hashed` is the hash of `plain`. -/
def bcryptCompare (plain hashed : List Char) : Bool :=
  hashed = bcryptHash plain

/-! ## The Author document (`models/author.js` schema) -/

/-- One `Author` document.  Fields follow `authorSchema`:
`name` (required, trimmed), `email` (required, unique, trimmed, lowercase),
`password` (required, minLength 6, hashed by the pre-save hook),
profile fields with their defaults, and the `followers` / `following`
arrays of author ids.  (`posts` / `comments` refs play no role in any
claim and are omitted.) -/
structure Author where
  id : Nat
  name : List Char
  email : List Char
  password : List Char
  bio : List Char
  profilePicture : List Char
  website : Option (List Char)
  location : Option (List Char)
  isPrivate : Bool
  followers : List Nat
  following : List Nat
  deriving DecidableEq, Repr

/-- The author collection, in insertion order. -/
abbrev DB := List Author

/-- Model of `Author.findById(i)` / `Author.findOne({_id: i})`: first document with
the given id. -/
def findById (s : DB) (i : Nat) : Option Author :=
  s.find? (fun a => a.id = i)

/-- Model of `Author.findOne({email: e})` where `e` is already normalised. -/
def findByEmail (s : DB) (e : List Char) : Option Author :=
  s.find? (fun a => a.email = e)

/-- Writing a loaded, modified document back by `_id` (Mongoose `save`,
or the write half of `findByIdAndUpdate`). -/
def setDoc (s : DB) (i : Nat) (a : Author) : DB :=
  s.map (fun b => if b.id = i then a else b)

/-! ## String setters (`trim: true`, `lowercase: true` on the schema) -/

/-- JS whitespace as far as the model needs it (space, tab, CR, LF). -/
def isWs (c : Char) : Bool :=
  c = (' ') || c = ('\t') || c = ('\n') || c = ('\r')

/-- Model of `String.prototype.trim` over the character-list rendering. -/
def trimL (l : List Char) : List Char :=
  ((l.dropWhile isWs).reverse.dropWhile isWs).reverse

/-- Model of `String.prototype.toLowerCase` (ASCII case folding suffices here). -/
def lowerL (l : List Char) : List Char :=
  l.map Char.toLower

/-- The email setters of `authorSchema`: `trim: true` then `lowercase: true`. -/
def normalizeEmail (e : List Char) : List Char :=
  lowerL (trimL e)

/-! ## Account store operations (`controllers/auth/apiController.js`) -/

/-- Signup request body (`POST /api/auth/signup`): the three fields the
controller and the schema validation read. -/
structure SignupReq where
  name : List Char
  email : List Char
  password : List Char
  deriving DecidableEq, Repr

/-- Outcome of `createAuthor`: 201 with the new id, or a 400 with the
Mongoose validation message, or a 400 with the duplicate-key message. -/
inductive CreateOutcome
  | created (id : Nat)
  | validationError
  | duplicateEmail
  deriving DecidableEq, Repr

/-- Fresh `_id` for an inserted document. -/
def freshId (s : DB) : Nat :=
  s.foldr (fun a m => max a.id m) 0 + 1

/-- The document `new Author(body)`/`save()` would persist for a valid
signup: setters applied, defaults filled, password hashed by the
`pre('save')` hook. -/
def mkAuthor (s : DB) (r : SignupReq) : Author :=
  ⟨freshId s, trimL r.name, normalizeEmail r.email, bcryptHash r.password,
    [], ("/images/default-avatar.png").data, none, none, false, [], []⟩

/-- Model of `exports.createAuthor`: the controller rejects missing (falsy) fields,
then `save()` runs the schema validation (required non-empty after
setters, password `minLength: 6`), the `pre('save')` bcrypt hook, and the
unique email index (duplicate-key error caught as 400).  On success the
document is appended to the collection. -/
def createAuthor (s : DB) (r : SignupReq) : CreateOutcome × DB :=
  if r.name = [] ∨ r.email = [] ∨ r.password = [] then (.validationError, s)
  else if trimL r.name = [] ∨ normalizeEmail r.email = [] ∨ r.password.length < 6 then
    (.validationError, s)
  else if (findByEmail s (normalizeEmail r.email)).isSome then (.duplicateEmail, s)
  else (.created (freshId s), s ++ [mkAuthor s r])

/-- Outcome of `loginAuthor`. -/
inductive LoginOutcome
  | ok (id : Nat)
  | invalidCredentials
  deriving DecidableEq, Repr

/-- Model of `exports.loginAuthor`: `findOne({email})` (the schema's lowercase/trim
setters are applied to the query filter, the Mongoose ≥6 default), then
`bcrypt.compare` against the stored credential.  Reads only. -/
def loginAuthor (s : DB) (email password : List Char) : LoginOutcome :=
  match findByEmail s (normalizeEmail email) with
  | none => .invalidCredentials
  | some a => if bcryptCompare password a.password then .ok a.id else .invalidCredentials

/-- Update request body (`PUT /api/authors/:id`): `undefined` fields are
absent.  An `email` field may be sent but is not in the whitelist and is
ignored. -/
structure UpdatePatch where
  name : Option (List Char)
  bio : Option (List Char)
  profilePicture : Option (List Char)
  website : Option (List Char)
  location : Option (List Char)
  isPrivate : Option Bool
  password : Option (List Char)
  email : Option (List Char)
  deriving DecidableEq, Repr

/-- The all-absent patch. -/
def emptyPatch : UpdatePatch :=
  ⟨none, none, none, none, none, none, none, none⟩

/-- Outcome of `updateAuthor` / `deleteAuthor`. -/
inductive UpdOutcome
  | ok
  | forbidden
  | notFound
  | badRequest
  deriving DecidableEq, Repr

/-- HTTP status the controller sends for each update outcome. -/
def UpdOutcome.status : UpdOutcome → Nat
  | .ok => 200
  | .forbidden => 403
  | .notFound => 404
  | .badRequest => 400

/-- Applying the whitelisted updates to the found document, as
`findByIdAndUpdate` does: schema setters (`trim`) run on the updated
string paths.  The password, when included, is written AS SENT:
`findByIdAndUpdate` does not run the `pre('save')` document middleware,
so the bcrypt hook never fires on this path. -/
def applyPatch (a : Author) (p : UpdatePatch) (pw : Option (List Char)) : Author :=
  ⟨a.id,
    (p.name.map trimL).getD a.name,
    a.email,
    pw.getD a.password,
    p.bio.getD a.bio,
    (p.profilePicture.map trimL).getD a.profilePicture,
    (match p.website with | some w => some (trimL w) | none => a.website),
    (match p.location with | some l => some (trimL l) | none => a.location),
    p.isPrivate.getD a.isPrivate,
    a.followers,
    a.following⟩

/-- Model of `exports.updateAuthor`: ownership check first (403 when the
authenticated id differs from the target id, before anything else), then
the whitelist `{name, bio, profilePicture, website, location, isPrivate}`
plus the password when truthy and of length ≥ 6, then
`findByIdAndUpdate(id, updates, {new: true, runValidators: true})`
(update validators on the updated paths; null result is a 404). -/
def updateAuthor (s : DB) (actorId targetId : Nat) (p : UpdatePatch) :
    UpdOutcome × DB :=
  if actorId ≠ targetId then (.forbidden, s)
  else
    let pw : Option (List Char) :=
      match p.password with
      | some w => if w ≠ [] ∧ 6 ≤ w.length then some w else none
      | none => none
    if p.name.any (fun n => trimL n = []) then (.badRequest, s)
    else if p.bio.any (fun b => 500 < b.length) then (.badRequest, s)
    else
      match findById s targetId with
      | none => (.notFound, s)
      | some a => (.ok, setDoc s targetId (applyPatch a p pw))

/-- Outcome of `deleteAuthor`. -/
inductive DelOutcome
  | noContent
  | forbidden
  | notFound
  deriving DecidableEq, Repr

/-- HTTP status for each delete outcome. -/
def DelOutcome.status : DelOutcome → Nat
  | .noContent => 204
  | .forbidden => 403
  | .notFound => 404

/-- Model of `exports.deleteAuthor`: ownership check first (403 before any I/O),
then `findByIdAndDelete` (404 when absent); the document is removed and
nothing else is touched — no cleanup of other authors' follower or
following arrays. -/
def deleteAuthor (s : DB) (actorId targetId : Nat) : DelOutcome × DB :=
  if actorId ≠ targetId then (.forbidden, s)
  else
    match findById s targetId with
    | none => (.notFound, s)
    | some _ => (.noContent, s.filter (fun a => ¬a.id = targetId))

/-! ## Social graph (`authorSchema.methods.follow` / `unfollow` and the
`followAuthor` / `unfollowAuthor` controllers) -/

/-- Model of `this.following.push(userId)` on a loaded document. -/
def pushFollowing (a : Author) (i : Nat) : Author :=
  ⟨a.id, a.name, a.email, a.password, a.bio, a.profilePicture, a.website,
    a.location, a.isPrivate, a.followers, a.following ++ [i]⟩

/-- Model of `target.followers.push(this._id)` on a loaded document. -/
def pushFollower (a : Author) (i : Nat) : Author :=
  ⟨a.id, a.name, a.email, a.password, a.bio, a.profilePicture, a.website,
    a.location, a.isPrivate, a.followers ++ [i], a.following⟩

/-- Model of `this.following = this.following.filter(f => f !== userId)`. -/
def removeFollowing (a : Author) (i : Nat) : Author :=
  ⟨a.id, a.name, a.email, a.password, a.bio, a.profilePicture, a.website,
    a.location, a.isPrivate, a.followers,
    a.following.filter (fun f => ¬f = i)⟩

/-- Model of `target.followers = target.followers.filter(f => f !== this._id)`. -/
def removeFollower (a : Author) (i : Nat) : Author :=
  ⟨a.id, a.name, a.email, a.password, a.bio, a.profilePicture, a.website,
    a.location, a.isPrivate, a.followers.filter (fun f => ¬f = i),
    a.following⟩

/-- Model of `authorSchema.methods.follow(userId)` run on the loaded document
`actor` (`req.user`): if the target is already in `following`, return with
no writes; otherwise push the target id, `save()` the actor, re-fetch the
target, and when it exists and lacks the actor in `followers`, push and
`save()` it.  The result is the mutated in-memory actor document
(`req.user` after the call) together with the collection. -/
def followOp (s : DB) (actor : Author) (targetId : Nat) : Author × DB :=
  if targetId ∈ actor.following then (actor, s)
  else
    let a1 := pushFollowing actor targetId
    let s1 := setDoc s actor.id a1
    match findById s1 targetId with
    | none => (a1, s1)
    | some t =>
      if actor.id ∈ t.followers then (a1, s1)
      else (a1, setDoc s1 targetId (pushFollower t actor.id))

/-- Model of `authorSchema.methods.unfollow(userId)` on the loaded `actor`: filter
the target out of `following`, `save()`, re-fetch the target, and when it
exists filter the actor out of its `followers` and `save()`. -/
def unfollowOp (s : DB) (actor : Author) (targetId : Nat) : Author × DB :=
  let a1 := removeFollowing actor targetId
  let s1 := setDoc s actor.id a1
  match findById s1 targetId with
  | none => (a1, s1)
  | some t => (a1, setDoc s1 targetId (removeFollower t actor.id))

/-- Result of a social endpoint: HTTP status, the `followingCount` of the
200 response body (read from the in-memory `req.user.following.length`),
and the collection afterwards. -/
structure SocialResult where
  status : Nat
  followingCount : Option Nat
  state : DB
  deriving DecidableEq, Repr

/-- Model of `exports.followAuthor` behind the `auth` middleware: `req.user` is the
live actor document (401 when it no longer exists), then the self-follow
rejection (400), the target existence check (404), the model `follow`,
and a 200 carrying `req.user.following.length`. -/
def followAuthor (s : DB) (actorId targetId : Nat) : SocialResult :=
  match findById s actorId with
  | none => ⟨401, none, s⟩
  | some actor =>
    if actorId = targetId then ⟨400, none, s⟩
    else
      match findById s targetId with
      | none => ⟨404, none, s⟩
      | some _ =>
        let r := followOp s actor targetId
        ⟨200, some r.1.following.length, r.2⟩

/-- Model of `exports.unfollowAuthor`, same shape as `followAuthor`. -/
def unfollowAuthor (s : DB) (actorId targetId : Nat) : SocialResult :=
  match findById s actorId with
  | none => ⟨401, none, s⟩
  | some actor =>
    if actorId = targetId then ⟨400, none, s⟩
    else
      match findById s targetId with
      | none => ⟨404, none, s⟩
      | some _ =>
        let r := unfollowOp s actor targetId
        ⟨200, some r.1.following.length, r.2⟩

/-! ## Session tokens (`generateAuthToken` and `jwt.verify` in the auth
middleware) -/

/-- Split a character list on a separator (used for the `.` structure of a
token and for `Authorization.split(' ')`). -/
def splitOnChar (sep : Char) : List Char → List (List Char)
  | [] => [[]]
  | c :: cs =>
    if c = sep then [] :: splitOnChar sep cs
    else
      match splitOnChar sep cs with
      | [] => [[c]]
      | g :: gs => (c :: g) :: gs

/-- Payload of a signed token: the account id (`{_id: ...}`) and an
optional `exp` claim.  `generateAuthToken` never sets `exp`; the field is
carried so that the verifier's expiry handling is part of the model. -/
structure Payload where
  id : Nat
  exp : Option Nat
  deriving DecidableEq, Repr

/-- Injective, separator-free rendering of an id inside a token (stands
for the base64url rendering, whose only used properties are injectivity
and that it contains no `.`). -/
def encodeId (i : Nat) : List Char :=
  List.replicate i ('1')

/-- Rendering of a payload: the id, then `x` and the expiry when present. -/
def encodePayload (p : Payload) : List Char :=
  match p.exp with
  | none => encodeId p.id
  | some e => encodeId p.id ++ ('x') :: encodeId e

/-- Canonical parse of a payload rendering. -/
def decodePayload (p : List Char) : Option Payload :=
  match splitOnChar ('x') p with
  | [i] => if i.all (fun c => c = ('1')) then some ⟨i.length, none⟩ else none
  | [i, e] =>
    if i.all (fun c => c = ('1')) && e.all (fun c => c = ('1')) then
      some ⟨i.length, some e.length⟩
    else none
  | _ => none

/-- Keyed tag over the payload (stands for the HMAC-SHA256 signature):
recomputed and compared by the verifier. -/
def macSig (secret payload : List Char) : List Char :=
  secret ++ (':') :: payload

/-- A signed token: `payload.signature`. -/
def jwtSignP (secret : List Char) (pl : Payload) : List Char :=
  encodePayload pl ++ ('.') :: macSig secret (encodePayload pl)

/-- Model of `authorSchema.methods.generateAuthToken`:
`jwt.sign({_id: this._id}, secret)` — no `expiresIn`, so the payload
carries no `exp` claim. -/
def generateAuthToken (secret : List Char) (i : Nat) : List Char :=
  jwtSignP secret ⟨i, none⟩

/-- Errors of `jwt.verify`: bad structure/signature, or elapsed expiry. -/
inductive TokenError
  | invalidToken
  | expiredToken
  deriving DecidableEq, Repr

deriving instance DecidableEq for Except

/-- Model of `jwt.verify(token, secret)` at clock time `now`: split the token,
recompute and compare the signature, parse the payload, and reject with
`expiredToken` when an `exp` claim is present and elapsed. -/
def jwtVerifyAt (now : Nat) (secret tok : List Char) : Except TokenError Nat :=
  match splitOnChar ('.') tok with
  | [p, s] =>
    if s = macSig secret p then
      match decodePayload p with
      | some pl =>
        match pl.exp with
        | some e => if e < now then .error .expiredToken else .ok pl.id
        | none => .ok pl.id
      | none => .error .invalidToken
    else .error .invalidToken
  | _ => .error .invalidToken

/-! ### One-byte tampering -/

/-- Statement that `u` is `t` with exactly one byte changed in place: same prefix, same
suffix, a different character at one position. -/
def OneByteDiff (t u : List Char) : Prop :=
  ∃ pre c d suf, ¬c = d ∧ t = pre ++ c :: suf ∧ u = pre ++ d :: suf

/-! ## Access guard (`middleware/auth.js`, the guard mounted in
`routes/apiRoutes.js`) -/

/-- An inbound request's token transports: the `token` query parameter and
the `Authorization` header; `none` is JS `undefined`. -/
structure Request where
  queryToken : Option (List Char)
  authorizationHeader : Option (List Char)
  deriving DecidableEq, Repr

/-- JS truthiness of an optional string: `undefined` and `""` are falsy. -/
def jsTruthy : Option (List Char) → Bool
  | none => false
  | some s => !s.isEmpty

/-- Token extraction of `middleware/auth.js`:
`req.query.token || req.headers.authorization?.split(' ')[1]` — the
query-string value wins whenever it is truthy.  (The unused
`exports.auth` in `apiController.js` reads the header first, but the
routes `require('../middleware/auth')`.) -/
def middlewareToken (req : Request) : Option (List Char) :=
  if jsTruthy req.queryToken then req.queryToken
  else
    match req.authorizationHeader with
    | none => none
    | some h => (splitOnChar (' ') h)[1]?

/-- The full guard at clock time `now`: extract a token (reject falsy:
`if (!token) throw`), `jwt.verify` it, and load the live author
(`Author.findById(decoded._id)`).  `none` models the 401 response. -/
def authResolve (now : Nat) (secret : List Char) (s : DB) (req : Request) :
    Option Author :=
  match middlewareToken req with
  | none => none
  | some t =>
    if t.isEmpty then none
    else
      match jwtVerifyAt now secret t with
      | .ok i => findById s i
      | .error _ => none

/-! ## Concrete sample data (used by the closed runs) -/

/-- The signing secret default `process.env.JWT_SECRET || 'secret'`. -/
def secretC : List Char := ("secret").data

def author1 : Author :=
  ⟨1, ("Ava").data, ("ava@x.com").data, bcryptHash (("secret1").data), [],
    ("/images/default-avatar.png").data, none, none, false, [], []⟩

def author2 : Author :=
  ⟨2, ("Bob").data, ("bob@x.com").data, bcryptHash (("secret2").data), [],
    ("/images/default-avatar.png").data, none, none, false, [], []⟩

/-- An author following `author1` (id 1). -/
def author2f : Author :=
  ⟨2, ("Bob").data, ("bob@x.com").data, bcryptHash (("secret2").data), [],
    ("/images/default-avatar.png").data, none, none, false, [], [1]⟩

/-- A patch that only changes the password. -/
def c1Patch : UpdatePatch :=
  ⟨none, none, none, none, none, none, some (("newpass1").data), none⟩

def c3Req : SignupReq :=
  ⟨("Ava").data, ("Ava@X.com").data, ("secret1").data⟩

def c6Req2 : SignupReq :=
  ⟨("Eve").data, ("ava@x.COM").data, ("secret2").data⟩

/-- A request carrying a token for author 1 in the query string and a
bearer token for author 2 in the `Authorization` header. -/
def c8Request : Request :=
  ⟨some (generateAuthToken secretC 1),
    some ((("Bearer ").data) ++ generateAuthToken secretC 2)⟩

/-! ## Lemmas and theorems -/

theorem bcryptHash_ne (plain : List Char) : bcryptHash plain ≠ plain := by
  intro h
  have hlen := congrArg List.length h
  simp [bcryptHash] at hlen
  omega

theorem bcryptCompare_hash (plain : List Char) :
    bcryptCompare plain (bcryptHash plain) = true := by
  simp [bcryptCompare]

theorem findById_id (s : DB) (i : Nat) (a : Author)
    (h : findById s i = some a) : a.id = i := by
  have := List.find?_some h
  simpa using this

theorem findById_cons (x : Author) (xs : DB) (i : Nat) :
    findById (x :: xs) i = if x.id = i then some x else findById xs i := by
  simp only [findById, List.find?]
  by_cases hx : x.id = i <;> simp [hx]

theorem setDoc_cons (x : Author) (xs : DB) (i : Nat) (b : Author) :
    setDoc (x :: xs) i b = (if x.id = i then b else x) :: setDoc xs i b := rfl

theorem findById_setDoc_self (s : DB) (i : Nat) (a b : Author)
    (h : findById s i = some a) (hb : b.id = i) :
    findById (setDoc s i b) i = some b := by
  induction s with
  | nil => simp [findById] at h
  | cons x xs ih =>
    rw [setDoc_cons, findById_cons]
    by_cases hx : x.id = i
    · simp [hx, hb]
    · rw [findById_cons] at h
      simp only [hx, if_false, if_neg hx] at h ⊢
      exact ih h

theorem findById_setDoc_ne (s : DB) (i j : Nat) (b : Author)
    (hij : j ≠ i) (hb : b.id = i) :
    findById (setDoc s i b) j = findById s j := by
  induction s with
  | nil => simp [findById, setDoc]
  | cons x xs ih =>
    rw [setDoc_cons, findById_cons, findById_cons]
    by_cases hx : x.id = i
    · have hxj : ¬x.id = j := fun h => hij (by rw [← h, hx])
      have hbj : ¬b.id = j := fun h => hij (by rw [← h, hb])
      rw [if_pos hx, if_neg hbj, if_neg hxj]
      exact ih
    · rw [if_neg hx]
      by_cases hxj : x.id = j
      · rw [if_pos hxj, if_pos hxj]
      · rw [if_neg hxj, if_neg hxj]
        exact ih

/-! ### Token lemmas -/

theorem splitOnChar_ne_nil (sep : Char) (l : List Char) :
    splitOnChar sep l ≠ [] := by
  induction l with
  | nil => simp [splitOnChar]
  | cons c cs ih =>
    simp only [splitOnChar]
    by_cases hc : c = sep
    · simp [hc]
    · rw [if_neg hc]
      cases h : splitOnChar sep cs with
      | nil => simp
      | cons g gs => simp

theorem splitOnChar_no_sep (sep : Char) (l : List Char) (h : sep ∉ l) :
    splitOnChar sep l = [l] := by
  induction l with
  | nil => rfl
  | cons c cs ih =>
    have hc : ¬c = sep := fun hc => h (by rw [hc]; exact List.mem_cons_self _ _)
    have hcs : sep ∉ cs := fun hm => h (List.mem_cons_of_mem _ hm)
    simp only [splitOnChar, if_neg hc, ih hcs]

theorem splitOnChar_append (sep : Char) (p rest : List Char) (h : sep ∉ p) :
    splitOnChar sep (p ++ sep :: rest) = p :: splitOnChar sep rest := by
  induction p with
  | nil => simp [splitOnChar]
  | cons c cs ih =>
    have hc : ¬c = sep := fun hc => h (by rw [hc]; exact List.mem_cons_self _ _)
    have hcs : sep ∉ cs := fun hm => h (List.mem_cons_of_mem _ hm)
    simp only [List.cons_append, splitOnChar, if_neg hc, List.append_eq]
    rw [ih hcs]

theorem splitOnChar_single_inv (sep : Char) (l x : List Char)
    (h : splitOnChar sep l = [x]) : l = x ∧ sep ∉ x := by
  induction l generalizing x with
  | nil =>
    simp only [splitOnChar] at h
    injection h with h1 h2
    exact ⟨h1, by rw [← h1]; simp⟩
  | cons c cs ih =>
    simp only [splitOnChar] at h
    by_cases hc : c = sep
    · rw [if_pos hc] at h
      injection h with h1 h2
      exact absurd h2 (splitOnChar_ne_nil sep cs)
    · rw [if_neg hc] at h
      cases hcs : splitOnChar sep cs with
      | nil => exact absurd hcs (splitOnChar_ne_nil sep cs)
      | cons g gs =>
        rw [hcs] at h
        injection h with h1 h2
        subst h2
        obtain ⟨hg, hns⟩ := ih g hcs
        constructor
        · rw [← h1, hg]
        · rw [← h1]
          intro hm
          rcases List.mem_cons.mp hm with hh | hh
          · exact hc hh.symm
          · exact hns hh

theorem splitOnChar_pair_inv (sep : Char) (l p s : List Char)
    (h : splitOnChar sep l = [p, s]) :
    l = p ++ sep :: s ∧ sep ∉ p ∧ sep ∉ s := by
  induction l generalizing p with
  | nil =>
    simp only [splitOnChar] at h
    simp at h
  | cons c cs ih =>
    simp only [splitOnChar] at h
    by_cases hc : c = sep
    · rw [if_pos hc] at h
      injection h with h1 h2
      obtain ⟨hcs, hns⟩ := splitOnChar_single_inv sep cs s h2
      refine ⟨?_, ?_, hns⟩
      · rw [← h1]
        simp [hc, hcs]
      · rw [← h1]
        simp
    · rw [if_neg hc] at h
      cases hcs : splitOnChar sep cs with
      | nil => exact absurd hcs (splitOnChar_ne_nil sep cs)
      | cons g gs =>
        rw [hcs] at h
        injection h with h1 h2
        subst h2
        obtain ⟨hl, hnp, hns⟩ := ih g hcs
        refine ⟨?_, ?_, hns⟩
        · rw [← h1]
          simp [hl]
        · rw [← h1]
          intro hm
          rcases List.mem_cons.mp hm with hh | hh
          · exact hc hh.symm
          · exact hnp hh

theorem mem_encodeId (i : Nat) (c : Char) (h : c ∈ encodeId i) : c = ('1') :=
  List.eq_of_mem_replicate h

theorem notin_encodeId (sep : Char) (i : Nat) (h : ¬sep = ('1')) :
    sep ∉ encodeId i :=
  fun hm => h (mem_encodeId i sep hm)

theorem notin_encodePayload (sep : Char) (pl : Payload)
    (h1 : ¬sep = ('1')) (hx : ¬sep = ('x')) : sep ∉ encodePayload pl := by
  intro hm
  cases hexp : pl.exp with
  | none =>
    rw [encodePayload, hexp] at hm
    exact notin_encodeId sep pl.id h1 hm
  | some e =>
    rw [encodePayload, hexp] at hm
    rcases List.mem_append.mp hm with hh | hh
    · exact notin_encodeId sep pl.id h1 hh
    · rcases List.mem_cons.mp hh with hh2 | hh2
      · exact hx hh2
      · exact notin_encodeId sep e h1 hh2

theorem allOnes_encodeId (i : Nat) :
    (encodeId i).all (fun c => c = ('1')) = true := by
  rw [List.all_eq_true]
  intro c hc
  simp [mem_encodeId i c hc]

theorem allOnes_eq_replicate (l : List Char)
    (h : l.all (fun c => c = ('1')) = true) :
    l = List.replicate l.length ('1') := by
  induction l with
  | nil => rfl
  | cons c cs ih =>
    rw [List.all_cons, Bool.and_eq_true] at h
    have hc : c = ('1') := by simpa using h.1
    rw [List.length_cons, List.replicate_succ]
    exact congrArg₂ List.cons hc (ih h.2)

theorem decodePayload_encodePayload (pl : Payload) :
    decodePayload (encodePayload pl) = some pl := by
  cases pl with
  | mk i e =>
    cases e with
    | none =>
      have hne : encodePayload ⟨i, none⟩ = encodeId i := rfl
      have hsp : splitOnChar ('x') (encodeId i) = [encodeId i] :=
        splitOnChar_no_sep _ _ (notin_encodeId _ _ (by decide))
      rw [hne]
      simp only [decodePayload, hsp, allOnes_encodeId]
      simp [encodeId]
    | some e =>
      have hx1 : ('x') ∉ encodeId i := notin_encodeId _ _ (by decide)
      have hx2 : ('x') ∉ encodeId e := notin_encodeId _ _ (by decide)
      have hne : encodePayload ⟨i, some e⟩ = encodeId i ++ ('x') :: encodeId e :=
        rfl
      have hsp : splitOnChar ('x') (encodeId i ++ ('x') :: encodeId e) =
          [encodeId i, encodeId e] := by
        rw [splitOnChar_append _ _ _ hx1, splitOnChar_no_sep _ _ hx2]
      rw [hne]
      simp only [decodePayload, hsp, allOnes_encodeId]
      simp [encodeId]

theorem decodePayload_some (p : List Char) (pl : Payload)
    (h : decodePayload p = some pl) : p = encodePayload pl := by
  rcases hsp : splitOnChar ('x') p with _ | ⟨i, _ | ⟨e, _ | ⟨u, rest⟩⟩⟩
  · exact absurd hsp (splitOnChar_ne_nil _ _)
  · obtain ⟨hp, _⟩ := splitOnChar_single_inv _ _ _ hsp
    simp only [decodePayload, hsp] at h
    by_cases hall : i.all (fun c => c = ('1')) = true
    · rw [if_pos hall] at h
      injection h with h1
      rw [← h1, encodePayload]
      simp only [encodeId]
      rw [hp]
      exact allOnes_eq_replicate i hall
    · rw [if_neg hall] at h
      exact absurd h (by simp)
  · obtain ⟨hp, _, _⟩ := splitOnChar_pair_inv _ _ _ _ hsp
    simp only [decodePayload, hsp] at h
    by_cases hall : (i.all (fun c => c = ('1')) &&
        e.all (fun c => c = ('1'))) = true
    · rw [if_pos hall] at h
      injection h with h1
      rw [Bool.and_eq_true] at hall
      rw [← h1, encodePayload]
      simp only [encodeId]
      rw [hp, allOnes_eq_replicate i hall.1, allOnes_eq_replicate e hall.2]
      simp
    · rw [if_neg hall] at h
      exact absurd h (by simp)
  · simp only [decodePayload, hsp] at h
    exact absurd h (by simp)

theorem notin_macSig (secret p : List Char) (hsec : ('.') ∉ secret)
    (hp : ('.') ∉ p) : ('.') ∉ macSig secret p := by
  intro hm
  rcases List.mem_append.mp hm with hh | hh
  · exact hsec hh
  · rcases List.mem_cons.mp hh with hh2 | hh2
    · exact absurd hh2 (by decide)
    · exact hp hh2

theorem splitDot_jwtSignP (secret : List Char) (pl : Payload)
    (hsec : ('.') ∉ secret) :
    splitOnChar ('.') (jwtSignP secret pl) =
      [encodePayload pl, macSig secret (encodePayload pl)] := by
  have hp : ('.') ∉ encodePayload pl :=
    notin_encodePayload _ _ (by decide) (by decide)
  rw [jwtSignP, splitOnChar_append _ _ _ hp,
    splitOnChar_no_sep _ _ (notin_macSig _ _ hsec hp)]

/-- Verification round-trip for any well-formed signed token. -/
theorem jwtVerifyAt_signP (now : Nat) (secret : List Char) (pl : Payload)
    (hsec : ('.') ∉ secret) :
    jwtVerifyAt now secret (jwtSignP secret pl) =
      match pl.exp with
      | some e => if e < now then .error .expiredToken else .ok pl.id
      | none => .ok pl.id := by
  cases hexp : pl.exp with
  | none =>
    simp [jwtVerifyAt, splitDot_jwtSignP secret pl hsec,
      decodePayload_encodePayload, hexp]
  | some e =>
    simp [jwtVerifyAt, splitDot_jwtSignP secret pl hsec,
      decodePayload_encodePayload, hexp]

/-- Only canonically signed tokens pass the structural and signature
checks: any token whose verification is not `invalidToken` is literally
`jwtSignP secret pl` for some payload. -/
theorem jwtVerifyAt_complete (now : Nat) (secret t : List Char)
    (h : jwtVerifyAt now secret t ≠ .error .invalidToken) :
    ∃ pl, t = jwtSignP secret pl := by
  rcases hsp : splitOnChar ('.') t with _ | ⟨p, _ | ⟨s, _ | ⟨u, rest⟩⟩⟩
  · exact absurd hsp (splitOnChar_ne_nil _ _)
  · simp [jwtVerifyAt, hsp] at h
  · by_cases hmac : s = macSig secret p
    · cases hdp : decodePayload p with
      | none => simp [jwtVerifyAt, hsp, hmac, hdp] at h
      | some pl =>
        refine ⟨pl, ?_⟩
        obtain ⟨ht, _, _⟩ := splitOnChar_pair_inv _ _ _ _ hsp
        rw [ht, hmac, decodePayload_some p pl hdp, jwtSignP]
    · simp [jwtVerifyAt, hsp, hmac] at h
  · simp [jwtVerifyAt, hsp] at h

theorem oneByteDiff_length (t u : List Char) (h : OneByteDiff t u) :
    t.length = u.length := by
  obtain ⟨pre, c, d, suf, _, ht, hu⟩ := h
  rw [ht, hu]
  simp

theorem getElem_append_lt (l₁ l₂ : List Char) (n : Nat) (h : n < l₁.length) :
    (l₁ ++ l₂)[n]? = l₁[n]? := by
  rw [List.getElem?_append, if_pos h]

theorem getElem_append_ge (l₁ l₂ : List Char) (n : Nat) (h : l₁.length ≤ n) :
    (l₁ ++ l₂)[n]? = l₂[n - l₁.length]? := by
  rw [List.getElem?_append, if_neg (by omega)]

theorem oneByteDiff_getElem (t u : List Char) (h : OneByteDiff t u) :
    ∃ i : Nat, t[i]? ≠ u[i]? ∧ ∀ j : Nat, j ≠ i → t[j]? = u[j]? := by
  obtain ⟨pre, c, d, suf, hcd, ht, hu⟩ := h
  refine ⟨pre.length, ?_, ?_⟩
  · rw [ht, hu, getElem_append_ge _ _ _ (le_refl _),
      getElem_append_ge _ _ _ (le_refl _)]
    simp
    exact hcd
  · intro j hj
    rw [ht, hu]
    rcases Nat.lt_or_ge j pre.length with hlt | hge
    · rw [getElem_append_lt _ _ _ hlt, getElem_append_lt _ _ _ hlt]
    · rw [getElem_append_ge _ _ _ hge, getElem_append_ge _ _ _ hge]
      obtain ⟨m, hm⟩ : ∃ m, j - pre.length = m + 1 :=
        ⟨j - pre.length - 1, by omega⟩
      rw [hm, List.getElem?_cons_succ, List.getElem?_cons_succ]

theorem length_encodeId (i : Nat) : (encodeId i).length = i := by
  simp [encodeId]

theorem length_jwtSignP (secret : List Char) (pl : Payload) :
    (jwtSignP secret pl).length =
      2 * (encodePayload pl).length + secret.length + 2 := by
  simp [jwtSignP, macSig]
  omega

theorem jwtSignP_getElem_low (secret : List Char) (pl : Payload) (k : Nat)
    (hk : k < (encodePayload pl).length) :
    (jwtSignP secret pl)[k]? = (encodePayload pl)[k]? := by
  rw [jwtSignP, getElem_append_lt _ _ _ hk]

theorem jwtSignP_getElem_high (secret : List Char) (pl : Payload) (k : Nat) :
    (jwtSignP secret pl)[(encodePayload pl).length + secret.length + 2 + k]? =
      (encodePayload pl)[k]? := by
  rw [jwtSignP]
  rw [getElem_append_ge _ _ _ (by omega)]
  have h1 : (encodePayload pl).length + secret.length + 2 + k -
      (encodePayload pl).length = secret.length + 1 + k + 1 := by omega
  rw [h1, List.getElem?_cons_succ, macSig,
    getElem_append_ge _ _ _ (by omega)]
  have h2 : secret.length + 1 + k - secret.length = k + 1 := by omega
  rw [h2, List.getElem?_cons_succ]

theorem lists_ne_exists_getElem (l₁ l₂ : List Char)
    (hlen : l₁.length = l₂.length) (hne : l₁ ≠ l₂) :
    ∃ k, k < l₁.length ∧ l₁[k]? ≠ l₂[k]? := by
  by_contra hall
  push_neg at hall
  refine hne (List.ext_getElem? fun n => ?_)
  rcases Nat.lt_or_ge n l₁.length with hlt | hge
  · exact hall n hlt
  · rw [List.getElem?_eq_none hge, List.getElem?_eq_none (hlen ▸ hge)]

/-- A token that differs from a properly issued token in exactly one byte
never verifies: the payload occurs both in the clear part and under the
signature, so a single changed byte can never produce another
well-formed signed token. -/
theorem jwtVerifyAt_oneByteDiff (now : Nat) (secret : List Char) (i : Nat)
    (u : List Char)
    (hd : OneByteDiff (generateAuthToken secret i) u) :
    jwtVerifyAt now secret u = .error .invalidToken := by
  by_contra hne
  obtain ⟨pl, hpl⟩ := jwtVerifyAt_complete now secret u hne
  obtain ⟨k0, hk0ne, hk0eq⟩ := oneByteDiff_getElem _ _ hd
  have hlen := oneByteDiff_length _ _ hd
  rw [hpl] at hlen hk0ne hk0eq
  rw [generateAuthToken] at hlen hk0ne hk0eq
  rw [length_jwtSignP, length_jwtSignP] at hlen
  have hPQ : (encodePayload ⟨i, none⟩).length = (encodePayload pl).length := by
    omega
  have hQne : encodePayload (⟨i, none⟩ : Payload) ≠ encodePayload pl := by
    intro he
    apply hk0ne
    rw [jwtSignP, jwtSignP, he]
  obtain ⟨k, hk, hkne⟩ :=
    lists_ne_exists_getElem _ _ hPQ hQne
  have hk' : k < (encodePayload pl).length := hPQ ▸ hk
  have hd1 : (jwtSignP secret ⟨i, none⟩)[k]? ≠ (jwtSignP secret pl)[k]? := by
    rw [jwtSignP_getElem_low secret _ k hk, jwtSignP_getElem_low secret _ k hk']
    exact hkne
  have hd2 :
      (jwtSignP secret ⟨i, none⟩)[(encodePayload (⟨i, none⟩ : Payload)).length +
        secret.length + 2 + k]? ≠
      (jwtSignP secret pl)[(encodePayload (⟨i, none⟩ : Payload)).length +
        secret.length + 2 + k]? := by
    rw [jwtSignP_getElem_high secret _ k, hPQ, jwtSignP_getElem_high secret _ k]
    exact hkne
  have he1 : k = k0 := by
    by_contra hkk
    exact hd1 (hk0eq k hkk)
  have he2 : (encodePayload (⟨i, none⟩ : Payload)).length +
      secret.length + 2 + k = k0 := by
    by_contra hkk
    exact hd2 (hk0eq _ hkk)
  omega

/-! ## Store and social-graph lemmas -/

theorem findByEmail_cons (x : Author) (xs : DB) (e : List Char) :
    findByEmail (x :: xs) e =
      if x.email = e then some x else findByEmail xs e := by
  simp only [findByEmail, List.find?]
  by_cases hx : x.email = e <;> simp [hx]

theorem findByEmail_append_some (s : DB) (a : Author) (e : List Char)
    (hnone : findByEmail s e = none) (ha : a.email = e) :
    findByEmail (s ++ [a]) e = some a := by
  induction s with
  | nil => simp [findByEmail_cons, ha]
  | cons x xs ih =>
    rw [findByEmail_cons] at hnone
    rw [List.cons_append, findByEmail_cons]
    by_cases hx : x.email = e
    · rw [if_pos hx] at hnone
      exact absurd hnone (by simp)
    · rw [if_neg hx] at hnone
      rw [if_neg hx]
      exact ih hnone

theorem createAuthor_success (s : DB) (r : SignupReq)
    (hname : ¬trimL r.name = []) (hmail : ¬normalizeEmail r.email = [])
    (hpw : 6 ≤ r.password.length)
    (hdup : findByEmail s (normalizeEmail r.email) = none) :
    createAuthor s r = (.created (freshId s), s ++ [mkAuthor s r]) := by
  have h1 : ¬(r.name = [] ∨ r.email = [] ∨ r.password = []) := by
    push_neg
    refine ⟨?_, ?_, ?_⟩
    · intro h
      exact hname (by rw [h]; rfl)
    · intro h
      exact hmail (by rw [h]; rfl)
    · intro h
      rw [h] at hpw
      simp at hpw
  have h2 : ¬(trimL r.name = [] ∨ normalizeEmail r.email = [] ∨
      r.password.length < 6) := by
    push_neg
    exact ⟨hname, hmail, by omega⟩
  simp only [createAuthor]
  rw [if_neg h1, if_neg h2, if_neg (by rw [hdup]; simp)]

theorem followAuthor_eq (s : DB) (aId bId : Nat) (a b : Author)
    (ha : findById s aId = some a) (hb : findById s bId = some b)
    (hab : aId ≠ bId) :
    followAuthor s aId bId =
      ⟨200, some (followOp s a bId).1.following.length,
        (followOp s a bId).2⟩ := by
  simp only [followAuthor, ha, hb, if_neg hab]

theorem unfollowAuthor_eq (s : DB) (aId bId : Nat) (a b : Author)
    (ha : findById s aId = some a) (hb : findById s bId = some b)
    (hab : aId ≠ bId) :
    unfollowAuthor s aId bId =
      ⟨200, some (unfollowOp s a bId).1.following.length,
        (unfollowOp s a bId).2⟩ := by
  simp only [unfollowAuthor, ha, hb, if_neg hab]

theorem followOp_mem (s : DB) (a : Author) (bId : Nat)
    (h : bId ∈ a.following) : followOp s a bId = (a, s) := by
  simp [followOp, h]

theorem followOp_state (s : DB) (aId bId : Nat) (a b : Author)
    (hab : aId ≠ bId) (ha : findById s aId = some a)
    (hb : findById s bId = some b) :
    (followOp s a bId).1 =
      (if bId ∈ a.following then a else pushFollowing a bId) ∧
    findById (followOp s a bId).2 aId =
      some (if bId ∈ a.following then a else pushFollowing a bId) ∧
    ∃ b', findById (followOp s a bId).2 bId = some b' ∧
      (bId ∈ a.following → b' = b) ∧
      (¬bId ∈ a.following → aId ∈ b'.followers) := by
  have haid : a.id = aId := findById_id s aId a ha
  have hbid : b.id = bId := findById_id s bId b hb
  subst haid
  by_cases hmem : bId ∈ a.following
  · rw [followOp_mem s a bId hmem]
    simp only [if_pos hmem]
    exact ⟨by trivial, ha, b, hb, fun _ => rfl, fun hc => absurd hmem hc⟩
  · have hfb : findById (setDoc s a.id (pushFollowing a bId)) bId = some b :=
      (findById_setDoc_ne s a.id bId (pushFollowing a bId)
        (Ne.symm hab) rfl).trans hb
    simp only [followOp, if_neg hmem, hfb]
    have hself : findById (setDoc s a.id (pushFollowing a bId)) a.id =
        some (pushFollowing a bId) :=
      findById_setDoc_self s a.id a _ ha rfl
    by_cases hbf : a.id ∈ b.followers
    · rw [if_pos hbf]
      simp only [if_neg hmem]
      exact ⟨by trivial, hself, b, hfb, fun hc => absurd hc hmem, fun _ => hbf⟩
    · rw [if_neg hbf]
      simp only [if_neg hmem]
      refine ⟨by trivial, ?_, pushFollower b a.id, ?_, ?_, ?_⟩
      · rw [findById_setDoc_ne _ bId a.id _ hab (by rw [pushFollower]; exact hbid)]
        exact hself
      · exact findById_setDoc_self _ bId b _ hfb (by rw [pushFollower]; exact hbid)
      · exact fun hc => absurd hc hmem
      · intro _
        simp [pushFollower]

theorem unfollowOp_state (s : DB) (aId bId : Nat) (a b : Author)
    (hab : aId ≠ bId) (ha : findById s aId = some a)
    (hb : findById s bId = some b) :
    (unfollowOp s a bId).1 = removeFollowing a bId ∧
    findById (unfollowOp s a bId).2 aId = some (removeFollowing a bId) ∧
    findById (unfollowOp s a bId).2 bId = some (removeFollower b aId) := by
  have haid : a.id = aId := findById_id s aId a ha
  have hbid : b.id = bId := findById_id s bId b hb
  subst haid
  have hfb : findById (setDoc s a.id (removeFollowing a bId)) bId = some b :=
    (findById_setDoc_ne s a.id bId (removeFollowing a bId)
      (Ne.symm hab) rfl).trans hb
  have hself : findById (setDoc s a.id (removeFollowing a bId)) a.id =
      some (removeFollowing a bId) :=
    findById_setDoc_self s a.id a _ ha rfl
  simp only [unfollowOp, hfb]
  refine ⟨by trivial, ?_, ?_⟩
  · rw [findById_setDoc_ne _ bId a.id _ hab (by rw [removeFollower]; exact hbid)]
    exact hself
  · exact findById_setDoc_self _ bId b _ hfb (by rw [removeFollower]; exact hbid)

/-! ## Claim theorems -/

/-- C1: the spec says the stored credential is always the bcrypt-hashed
form — "update(id, patch) with a password of length ≥ 6 stores a
re-hashed credential, not the plaintext" — and the controller's own
comment says "model will hash it".  The code disagrees: the update path
goes through `findByIdAndUpdate`, which never runs the `pre('save')`
hash hook, so the submitted plaintext is persisted verbatim.  Concrete
run: owner 1 updates the own account with password `newpass1`; the
stored credential afterwards is the plaintext `newpass1`, which is not
its bcrypt hash. -/
theorem c1_update_stores_plaintext :
    (findById (updateAuthor [author1] 1 1 c1Patch).2 1).map Author.password =
      some (("newpass1").data) ∧
    (("newpass1").data) ≠ bcryptHash (("newpass1").data) := by
  constructor
  · decide
  · decide

/-- C2: for distinct existing accounts A and B (their stored mirror
consistent for this pair beforehand), after `follow(A,B)` succeeds
(status 200) B is in A's `following` and A is in B's `followers`, and
after `unfollow(A,B)` succeeds neither holds — the relation is mirrored
across both documents after each completed operation. -/
theorem c2_follow_unfollow_mirror (s : DB) (aId bId : Nat) (a b : Author)
    (hab : aId ≠ bId) (ha : findById s aId = some a)
    (hb : findById s bId = some b)
    (hmir : bId ∈ a.following → aId ∈ b.followers) :
    ((followAuthor s aId bId).status = 200 ∧
      ∃ a' b', findById (followAuthor s aId bId).state aId = some a' ∧
        findById (followAuthor s aId bId).state bId = some b' ∧
        bId ∈ a'.following ∧ aId ∈ b'.followers) ∧
    ((unfollowAuthor s aId bId).status = 200 ∧
      ∃ a' b', findById (unfollowAuthor s aId bId).state aId = some a' ∧
        findById (unfollowAuthor s aId bId).state bId = some b' ∧
        ¬bId ∈ a'.following ∧ ¬aId ∈ b'.followers) := by
  constructor
  · rw [followAuthor_eq s aId bId a b ha hb hab]
    obtain ⟨h1, h2, b', hb', hmb, hnmb⟩ := followOp_state s aId bId a b hab ha hb
    refine ⟨rfl, _, b', h2, hb', ?_, ?_⟩
    · by_cases hmem : bId ∈ a.following
      · simpa [if_pos hmem] using hmem
      · simp [if_neg hmem, pushFollowing]
    · by_cases hmem : bId ∈ a.following
      · rw [hmb hmem]
        exact hmir hmem
      · exact hnmb hmem
  · rw [unfollowAuthor_eq s aId bId a b ha hb hab]
    obtain ⟨h1, h2, h3⟩ := unfollowOp_state s aId bId a b hab ha hb
    refine ⟨rfl, _, _, h2, h3, ?_, ?_⟩
    · simp [removeFollowing]
    · simp [removeFollower]

theorem c2_follow_unfollow_mirror_witness :
    ((followAuthor [author1, author2] 1 2).status = 200 ∧
      ∃ a' b', findById (followAuthor [author1, author2] 1 2).state 1 = some a' ∧
        findById (followAuthor [author1, author2] 1 2).state 2 = some b' ∧
        2 ∈ a'.following ∧ 1 ∈ b'.followers) ∧
    ((unfollowAuthor [author1, author2] 1 2).status = 200 ∧
      ∃ a' b', findById (unfollowAuthor [author1, author2] 1 2).state 1 = some a' ∧
        findById (unfollowAuthor [author1, author2] 1 2).state 2 = some b' ∧
        ¬2 ∈ a'.following ∧ ¬1 ∈ b'.followers) :=
  c2_follow_unfollow_mirror [author1, author2] 1 2 author1 author2
    (by decide) (by decide) (by decide) (by decide)

/-- C3: for every valid signup (non-empty trimmed name, non-empty
normalised email, password of length ≥ 6, email not yet taken), the
credential stored at creation never equals the submitted plaintext,
bcrypt verification of the plaintext against the stored credential
succeeds, and login with the original email and password is accepted. -/
theorem c3_signup_credential (s : DB) (r : SignupReq)
    (hname : ¬trimL r.name = []) (hmail : ¬normalizeEmail r.email = [])
    (hpw : 6 ≤ r.password.length)
    (hdup : findByEmail s (normalizeEmail r.email) = none) :
    (createAuthor s r).1 = .created (mkAuthor s r).id ∧
    (mkAuthor s r).password ≠ r.password ∧
    bcryptCompare r.password (mkAuthor s r).password = true ∧
    loginAuthor (createAuthor s r).2 r.email r.password =
      .ok (mkAuthor s r).id := by
  have hc := createAuthor_success s r hname hmail hpw hdup
  refine ⟨by rw [hc]; rfl, bcryptHash_ne r.password,
    bcryptCompare_hash r.password, ?_⟩
  rw [hc]
  have hfind : findByEmail (s ++ [mkAuthor s r]) (normalizeEmail r.email) =
      some (mkAuthor s r) :=
    findByEmail_append_some s (mkAuthor s r) (normalizeEmail r.email) hdup rfl
  simp only [loginAuthor, hfind]
  rw [if_pos (show bcryptCompare r.password (mkAuthor s r).password = true from
    bcryptCompare_hash r.password)]

theorem c3_signup_credential_witness :
    (createAuthor [] c3Req).1 = .created (mkAuthor [] c3Req).id ∧
    (mkAuthor [] c3Req).password ≠ c3Req.password ∧
    bcryptCompare c3Req.password (mkAuthor [] c3Req).password = true ∧
    loginAuthor (createAuthor [] c3Req).2 c3Req.email c3Req.password =
      .ok (mkAuthor [] c3Req).id :=
  c3_signup_credential [] c3Req (by decide) (by decide) (by decide) rfl

/-- C4: for every account id and dot-free signing secret, validating the
token issued for the id yields the id again, and any token differing
from the issued one in one byte fails validation (the payload occurs
both in the clear and under the signature, so a single changed byte can
never produce another valid token). -/
theorem c4_token_roundtrip_tamper (secret : List Char) (i now : Nat)
    (u : List Char) (hsec : ('.') ∉ secret)
    (hd : OneByteDiff (generateAuthToken secret i) u) :
    jwtVerifyAt now secret (generateAuthToken secret i) = .ok i ∧
    jwtVerifyAt now secret u = .error .invalidToken :=
  ⟨jwtVerifyAt_signP now secret ⟨i, none⟩ hsec,
    jwtVerifyAt_oneByteDiff now secret i u hd⟩

theorem c4_token_roundtrip_tamper_witness :
    jwtVerifyAt 0 secretC (generateAuthToken secretC 2) = .ok 2 ∧
    jwtVerifyAt 0 secretC (("11.secret:12").data) = .error .invalidToken :=
  c4_token_roundtrip_tamper secretC 2 0 (("11.secret:12").data) (by decide)
    ⟨("11.secret:1").data, '1', '2', [], by decide, by decide, by decide⟩

/-- C5: for every pair of distinct ids X ≠ Y with X authenticated, calling
update or delete on Y's identifier yields Forbidden (403) and leaves the
whole collection — in particular Y's record — unchanged: the ownership
check runs before any write. -/
theorem c5_ownership_forbidden (s : DB) (x y : Nat) (p : UpdatePatch)
    (hxy : x ≠ y) :
    updateAuthor s x y p = (.forbidden, s) ∧
    deleteAuthor s x y = (.forbidden, s) ∧
    UpdOutcome.forbidden.status = 403 ∧ DelOutcome.forbidden.status = 403 := by
  refine ⟨?_, ?_, rfl, rfl⟩
  · simp only [updateAuthor, if_pos hxy]
  · simp only [deleteAuthor, if_pos hxy]

theorem c5_ownership_forbidden_witness :
    updateAuthor [author1, author2] 1 2 emptyPatch =
      (.forbidden, [author1, author2]) ∧
    deleteAuthor [author1, author2] 1 2 = (.forbidden, [author1, author2]) ∧
    UpdOutcome.forbidden.status = 403 ∧ DelOutcome.forbidden.status = 403 :=
  c5_ownership_forbidden [author1, author2] 1 2 emptyPatch (by decide)

/-- C6: after a signup with email e succeeds, a second valid signup whose
email normalises (trim + lowercase) to the same address — any case
variant of e does — fails with the duplicate-email error and creates no
account: the collection is unchanged. -/
theorem c6_duplicate_email_case_insensitive (s : DB) (r1 r2 : SignupReq)
    (hname1 : ¬trimL r1.name = []) (hmail1 : ¬normalizeEmail r1.email = [])
    (hpw1 : 6 ≤ r1.password.length)
    (hdup1 : findByEmail s (normalizeEmail r1.email) = none)
    (hname2 : ¬trimL r2.name = []) (hpw2 : 6 ≤ r2.password.length)
    (hsame : normalizeEmail r2.email = normalizeEmail r1.email) :
    (createAuthor s r1).1 = .created (freshId s) ∧
    createAuthor (createAuthor s r1).2 r2 =
      (.duplicateEmail, (createAuthor s r1).2) := by
  have hc := createAuthor_success s r1 hname1 hmail1 hpw1 hdup1
  refine ⟨by rw [hc], ?_⟩
  rw [hc]
  have hmail2 : ¬normalizeEmail r2.email = [] := by
    rw [hsame]
    exact hmail1
  have hfind : findByEmail (s ++ [mkAuthor s r1]) (normalizeEmail r2.email) =
      some (mkAuthor s r1) := by
    rw [hsame]
    exact findByEmail_append_some s (mkAuthor s r1) (normalizeEmail r1.email)
      hdup1 rfl
  have h1 : ¬(r2.name = [] ∨ r2.email = [] ∨ r2.password = []) := by
    push_neg
    refine ⟨?_, ?_, ?_⟩
    · intro h
      exact hname2 (by rw [h]; rfl)
    · intro h
      exact hmail2 (by rw [h]; rfl)
    · intro h
      rw [h] at hpw2
      simp at hpw2
  have h2 : ¬(trimL r2.name = [] ∨ normalizeEmail r2.email = [] ∨
      r2.password.length < 6) := by
    push_neg
    exact ⟨hname2, hmail2, by omega⟩
  simp only [createAuthor]
  rw [if_neg h1, if_neg h2, if_pos (by rw [hfind]; simp)]

theorem c6_duplicate_email_witness :
    (createAuthor [] c3Req).1 = .created (freshId []) ∧
    createAuthor (createAuthor [] c3Req).2 c6Req2 =
      (.duplicateEmail, (createAuthor [] c3Req).2) :=
  c6_duplicate_email_case_insensitive [] c3Req c6Req2 (by decide) (by decide)
    (by decide) rfl (by decide) (by decide) (by decide)

/-- C7: for distinct existing accounts A and B, calling `follow(A,B)`
twice leaves the state identical to calling it once, and the second call
succeeds (200) with the same `followingCount` as the first. -/
theorem c7_follow_idempotent (s : DB) (aId bId : Nat) (a b : Author)
    (hab : aId ≠ bId) (ha : findById s aId = some a)
    (hb : findById s bId = some b) :
    (followAuthor s aId bId).status = 200 ∧
    followAuthor (followAuthor s aId bId).state aId bId =
      ⟨200, (followAuthor s aId bId).followingCount,
        (followAuthor s aId bId).state⟩ := by
  rw [followAuthor_eq s aId bId a b ha hb hab]
  obtain ⟨h1, h2, b', hb', _, _⟩ := followOp_state s aId bId a b hab ha hb
  have hmem2 :
      bId ∈ ((if bId ∈ a.following then a else pushFollowing a bId) :
        Author).following := by
    by_cases hmem : bId ∈ a.following
    · simpa [if_pos hmem] using hmem
    · simp [if_neg hmem, pushFollowing]
  refine ⟨rfl, ?_⟩
  rw [followAuthor_eq (followOp s a bId).2 aId bId _ b' h2 hb' hab,
    followOp_mem _ _ _ hmem2, h1]

theorem c7_follow_idempotent_witness :
    (followAuthor [author1, author2] 1 2).status = 200 ∧
    followAuthor (followAuthor [author1, author2] 1 2).state 1 2 =
      ⟨200, (followAuthor [author1, author2] 1 2).followingCount,
        (followAuthor [author1, author2] 1 2).state⟩ :=
  c7_follow_idempotent [author1, author2] 1 2 author1 author2
    (by decide) (by decide) (by decide)

/-- C8 counterexample: the claim says the Access Guard prefers the
`Authorization` header over the `token` query parameter.  The guard the
routes actually mount (`middleware/auth.js`) evaluates
`req.query.token || req.headers.authorization?.split(' ')[1]`, so the
query value wins.  Concrete run: the query carries a valid token for
author 1 and the header a valid bearer token for author 2; the guard
resolves author 1, not author 2. -/
theorem c8_header_preference_counterexample :
    (authResolve 0 secretC [author1, author2] c8Request).map Author.id =
      some 1 ∧
    jwtVerifyAt 0 secretC (generateAuthToken secretC 2) = .ok 2 ∧
    (1 : Nat) ≠ 2 := by
  refine ⟨?_, ?_, ?_⟩
  · decide
  · decide
  · decide

/-- C8 amended: when the `token` query parameter is present and truthy
(non-empty), the guard mounted by the routes resolves the token from the
query string, regardless of any `Authorization` header. -/
theorem c8_query_preferred (req : Request) (t : List Char)
    (hq : req.queryToken = some t) (ht : ¬t = []) :
    middlewareToken req = some t := by
  cases t with
  | nil => exact absurd rfl ht
  | cons c cs => simp [middlewareToken, hq, jsTruthy]

theorem c8_query_preferred_witness :
    middlewareToken c8Request = some (generateAuthToken secretC 1) :=
  c8_query_preferred c8Request (generateAuthToken secretC 1) rfl (by decide)

/-- C9: `generateAuthToken` signs `{_id}` with no `expiresIn`, so the
issued token carries no expiry claim: for every later clock time,
verification still succeeds with the same id and in particular never
fails with `expiredToken` — an issued token stays cryptographically
valid indefinitely. -/
theorem c9_token_never_expires (secret : List Char) (i now : Nat)
    (hsec : ('.') ∉ secret) :
    jwtVerifyAt now secret (generateAuthToken secret i) = .ok i ∧
    jwtVerifyAt now secret (generateAuthToken secret i) ≠
      .error .expiredToken := by
  have h : jwtVerifyAt now secret (generateAuthToken secret i) = .ok i :=
    jwtVerifyAt_signP now secret ⟨i, none⟩ hsec
  refine ⟨h, ?_⟩
  rw [h]
  simp

theorem c9_token_never_expires_witness :
    jwtVerifyAt 999999 secretC (generateAuthToken secretC 3) = .ok 3 ∧
    jwtVerifyAt 999999 secretC (generateAuthToken secretC 3) ≠
      .error .expiredToken :=
  c9_token_never_expires secretC 3 999999 (by decide)

/-- C10: when an owner deletes the own account, exactly that account's
documents are removed from the collection and every other author
document — including its `followers` and `following` arrays — is left
unchanged, so identifiers of deleted accounts remain as dangling entries
in other accounts' relationship sets. -/
theorem c10_delete_frame (s : DB) (d : Nat) (a0 : Author)
    (h : findById s d = some a0) :
    deleteAuthor s d d = (.noContent, s.filter (fun a => ¬a.id = d)) ∧
    ∀ a ∈ s, ¬a.id = d → a ∈ (deleteAuthor s d d).2 := by
  have hdel : deleteAuthor s d d =
      (.noContent, s.filter (fun a => ¬a.id = d)) := by
    simp only [deleteAuthor, if_neg (by simp : ¬d ≠ d), h]
  refine ⟨hdel, ?_⟩
  intro a hmem hne
  rw [hdel]
  simp [List.mem_filter, hmem, hne]

theorem c10_delete_frame_witness :
    deleteAuthor [author1, author2f] 1 1 = (.noContent, [author2f]) ∧
    author2f ∈ (deleteAuthor [author1, author2f] 1 1).2 ∧
    1 ∈ author2f.following := by
  have h := c10_delete_frame [author1, author2f] 1 author1 rfl
  exact ⟨h.1.trans (by decide), h.2 author2f (by decide) (by decide), by decide⟩

end Api

